import Mathlib

/-!
# Verification of the Alumni-Sphere backend's real-time layer and email service

This development embeds, in Lean, the real-time messaging/presence layer of the
backend (the socket.io setup in the server entry file: authentication middleware
hook, personal-room auto-join, `joinConversation` / `leaveConversation` handlers,
disconnect cleanup) together with the email service (`config/emailService.js`:
`generateOTP`, `sendOTPEmail`, `sendAdminApprovalEmail`).

The room bookkeeping itself (connection registry, room membership index,
dispatch fan-out) is performed at runtime by the socket.io library, not by
repository code; those operations are modelled from the spec (§4.2, §4.3,
§4.6, §4.7), while everything the repository's own handlers do (which rooms are
joined, under which conditions, with which identifier strings) is taken from
the source.
-/

namespace AlumniSphere

/-- Association table from a string key to a list of strings.  Used in two
roles: the Room Membership Index (room id ↦ member connection ids) and the
connection → rooms view of the Connection Registry (connection id ↦ room ids). -/
abbrev Table := List (String × List String)

/-- Modelled from the spec (§4.3 `membersOf(roomId)`): first-match lookup of a
key's value list, defaulting to the empty list when the key has no entry. -/
def membersOf : Table → String → List String
  | [], _ => []
  | (k, v) :: t, r => if k = r then v else membersOf t r

/-- Modelled from the spec (§4.3 `join(roomId, connectionId)`): adds `c` to the
member set of `r`, creating the entry if absent; joining twice is a no-op. -/
def join : Table → String → String → Table
  | [], r, c => [(r, [c])]
  | (k, v) :: t, r, c =>
    if k = r then (if c ∈ v then (k, v) :: t else (k, c :: v) :: t)
    else (k, v) :: join t r c

/-- Modelled from the spec (§4.3 `leave(roomId, connectionId)`): removes `c`
from the member set of `r`; if the member set becomes empty the room entry is
deleted. -/
def leave : Table → String → String → Table
  | [], _, _ => []
  | (k, v) :: t, r, c =>
    if k = r then (if v.erase c = [] then t else (k, v.erase c) :: t)
    else (k, v) :: leave t r c

/-- Removes a key's entry entirely (used by `unregister`, which drops the
connection's room-set record wholesale). -/
def eraseEntry : Table → String → Table
  | [], _ => []
  | (k, v) :: t, c => if k = c then t else (k, v) :: eraseEntry t c

/-- All value lists in the table are nonempty and duplicate-free (no lingering
empty rooms, member sets are sets). -/
def entriesWF (t : Table) : Prop := ∀ p ∈ t, p.2 ≠ [] ∧ p.2.Nodup

/-- The keys of the table are pairwise distinct. -/
def keysNodup (t : Table) : Prop := (t.map Prod.fst).Nodup

instance (t : Table) : Decidable (entriesWF t) := by
  unfold entriesWF; infer_instance

instance (t : Table) : Decidable (keysNodup t) := by
  unfold keysNodup; infer_instance

theorem membersOf_eq_nil_of_not_mem_keys {t : Table} {r : String}
    (h : r ∉ t.map Prod.fst) : membersOf t r = [] := by
  induction t with
  | nil => rfl
  | cons p t ih =>
    obtain ⟨k, v⟩ := p
    simp only [List.map_cons, List.mem_cons] at h
    push_neg at h
    have hk : ¬ k = r := fun e => h.1 e.symm
    simp only [membersOf, if_neg hk]
    exact ih h.2

theorem membersOf_join (t : Table) (r c q : String) :
    membersOf (join t r c) q =
      if q = r then
        (if c ∈ membersOf t r then membersOf t r else c :: membersOf t r)
      else membersOf t q := by
  induction t with
  | nil =>
    by_cases hq : q = r
    · subst hq; simp [join, membersOf]
    · have hq' : ¬ r = q := fun e => hq e.symm
      simp [join, membersOf, hq, hq']
  | cons p t ih =>
    obtain ⟨k, v⟩ := p
    by_cases hk : k = r
    · subst hk
      by_cases hq : q = k
      · subst hq
        by_cases hc : c ∈ v <;> simp [join, membersOf, hc]
      · have hq' : ¬ k = q := fun e => hq e.symm
        by_cases hc : c ∈ v <;> simp [join, membersOf, hc, hq, hq']
    · by_cases hq : q = k
      · subst hq
        simp [join, membersOf, hk]
      · have hq' : ¬ k = q := fun e => hq e.symm
        simp only [join, if_neg hk]
        simp only [membersOf, if_neg hq']
        rw [ih]
        by_cases hqr : q = r
        · subst hqr
          simp [membersOf, if_neg hq']
        · simp [hqr]

theorem join_join (t : Table) (r c : String) :
    join (join t r c) r c = join t r c := by
  induction t with
  | nil => simp [join]
  | cons p t ih =>
    obtain ⟨k, v⟩ := p
    by_cases hk : k = r
    · subst hk
      by_cases hc : c ∈ v <;> simp [join, hc]
    · simp [join, hk, ih]

theorem membersOf_leave (t : Table) (r c q : String) (hnd : keysNodup t) :
    membersOf (leave t r c) q =
      if q = r then (membersOf t r).erase c else membersOf t q := by
  induction t with
  | nil =>
    by_cases hq : q = r <;> simp [leave, membersOf, hq]
  | cons p t ih =>
    obtain ⟨k, v⟩ := p
    have hnd0 := List.nodup_cons.mp hnd
    have hknot : k ∉ t.map Prod.fst := hnd0.1
    have hnd' : keysNodup t := hnd0.2
    by_cases hk : k = r
    · subst hk
      by_cases he : v.erase c = []
      · by_cases hq : q = k
        · subst hq
          simp [leave, he, membersOf, membersOf_eq_nil_of_not_mem_keys hknot]
        · have hq' : ¬ k = q := fun e => hq e.symm
          simp [leave, he, membersOf, hq, hq']
      · by_cases hq : q = k
        · subst hq; simp [leave, he, membersOf]
        · have hq' : ¬ k = q := fun e => hq e.symm
          simp [leave, he, membersOf, hq, hq']
    · by_cases hq : q = k
      · subst hq
        have hqr : ¬ q = r := hk
        simp [leave, hk, membersOf, hqr]
      · have hq' : ¬ k = q := fun e => hq e.symm
        simp only [leave, if_neg hk]
        simp only [membersOf, if_neg hq']
        rw [ih hnd']
        by_cases hqr : q = r
        · subst hqr; simp [membersOf, if_neg hq']
        · simp [hqr]

theorem mem_keys_join {t : Table} {r c x : String}
    (h : x ∈ (join t r c).map Prod.fst) : x ∈ t.map Prod.fst ∨ x = r := by
  induction t with
  | nil =>
    simp only [join, List.map_cons, List.map_nil, List.mem_singleton] at h
    exact Or.inr h
  | cons p t ih =>
    obtain ⟨k, v⟩ := p
    by_cases hk : k = r
    · subst hk
      by_cases hc : c ∈ v
      · exact Or.inl (by simpa [join, hc] using h)
      · exact Or.inl (by simpa [join, hc] using h)
    · simp only [join, if_neg hk, List.map_cons, List.mem_cons] at h ⊢
      rcases h with h | h
      · exact Or.inl (Or.inl h)
      · rcases ih h with h' | h'
        · exact Or.inl (Or.inr h')
        · exact Or.inr h'

theorem keysNodup_join {t : Table} (r c : String) (hnd : keysNodup t) :
    keysNodup (join t r c) := by
  induction t with
  | nil => simp [join, keysNodup]
  | cons p t ih =>
    obtain ⟨k, v⟩ := p
    have hnd0 := List.nodup_cons.mp hnd
    by_cases hk : k = r
    · subst hk
      by_cases hc : c ∈ v <;> simpa [join, hc, keysNodup] using hnd
    · have ih' := ih hnd0.2
      have hknot : k ∉ (join t r c).map Prod.fst := by
        intro hmem
        rcases mem_keys_join hmem with h | h
        · exact hnd0.1 h
        · exact hk h
      simp only [join, if_neg hk, keysNodup, List.map_cons]
      exact List.nodup_cons.mpr ⟨hknot, ih'⟩

theorem keys_leave_sublist (t : Table) (r c : String) :
    List.Sublist ((leave t r c).map Prod.fst) (t.map Prod.fst) := by
  induction t with
  | nil => simp [leave]
  | cons p t ih =>
    obtain ⟨k, v⟩ := p
    by_cases hk : k = r
    · subst hk
      by_cases he : v.erase c = []
      · simp only [leave, if_pos rfl, if_pos he, List.map_cons]
        exact (List.sublist_cons_self _ _)
      · simp [leave, he]
    · simp only [leave, if_neg hk, List.map_cons]
      exact List.Sublist.cons₂ _ ih

theorem keysNodup_leave {t : Table} (r c : String) (hnd : keysNodup t) :
    keysNodup (leave t r c) :=
  List.Nodup.sublist (keys_leave_sublist t r c) hnd

theorem keys_eraseEntry_sublist (t : Table) (c : String) :
    List.Sublist ((eraseEntry t c).map Prod.fst) (t.map Prod.fst) := by
  induction t with
  | nil => simp [eraseEntry]
  | cons p t ih =>
    obtain ⟨k, v⟩ := p
    by_cases hk : k = c
    · simp only [eraseEntry, if_pos hk, List.map_cons]
      exact List.sublist_cons_self _ _
    · simp only [eraseEntry, if_neg hk, List.map_cons]
      exact List.Sublist.cons₂ _ ih

theorem keysNodup_eraseEntry {t : Table} (c : String) (hnd : keysNodup t) :
    keysNodup (eraseEntry t c) :=
  List.Nodup.sublist (keys_eraseEntry_sublist t c) hnd

theorem entriesWF_join {t : Table} (r c : String) (hwf : entriesWF t) :
    entriesWF (join t r c) := by
  induction t with
  | nil =>
    intro p hp
    simp only [join, List.mem_singleton] at hp
    subst hp; simp
  | cons q t ih =>
    obtain ⟨k, v⟩ := q
    have hkv := hwf (k, v) (by simp)
    have hwf' : entriesWF t := fun p hp => hwf p (by simp [hp])
    by_cases hk : k = r
    · subst hk
      by_cases hc : c ∈ v
      · simpa [join, hc] using hwf
      · intro p hp
        simp only [join, if_pos rfl, if_neg hc, List.mem_cons, ite_true,
          ite_false, eq_self_iff_true, if_true, if_false] at hp
        rcases hp with hp | hp
        · subst hp
          exact ⟨by simp, List.nodup_cons.mpr ⟨hc, hkv.2⟩⟩
        · exact hwf' p hp
    · intro p hp
      simp only [join, if_neg hk, List.mem_cons] at hp
      rcases hp with hp | hp
      · subst hp; exact hkv
      · exact ih hwf' p hp

theorem entriesWF_leave {t : Table} (r c : String) (hwf : entriesWF t) :
    entriesWF (leave t r c) := by
  induction t with
  | nil => intro p hp; simp [leave] at hp
  | cons q t ih =>
    obtain ⟨k, v⟩ := q
    have hkv := hwf (k, v) (by simp)
    have hwf' : entriesWF t := fun p hp => hwf p (by simp [hp])
    by_cases hk : k = r
    · subst hk
      by_cases he : v.erase c = []
      · simpa [leave, he] using hwf'
      · intro p hp
        simp only [leave, if_pos rfl, if_neg he, List.mem_cons, ite_true,
          ite_false, eq_self_iff_true, if_true, if_false] at hp
        rcases hp with hp | hp
        · subst hp
          exact ⟨he, List.Nodup.erase c hkv.2⟩
        · exact hwf' p hp
    · intro p hp
      simp only [leave, if_neg hk, List.mem_cons] at hp
      rcases hp with hp | hp
      · subst hp; exact hkv
      · exact ih hwf' p hp

theorem entriesWF_eraseEntry {t : Table} (c : String) (hwf : entriesWF t) :
    entriesWF (eraseEntry t c) := by
  induction t with
  | nil => intro p hp; simp [eraseEntry] at hp
  | cons q t ih =>
    obtain ⟨k, v⟩ := q
    have hkv := hwf (k, v) (by simp)
    have hwf' : entriesWF t := fun p hp => hwf p (by simp [hp])
    by_cases hk : k = c
    · simpa [eraseEntry, hk] using hwf'
    · intro p hp
      simp only [eraseEntry, if_neg hk, List.mem_cons] at hp
      rcases hp with hp | hp
      · subst hp; exact hkv
      · exact ih hwf' p hp

theorem membersOf_nodup {t : Table} (hwf : entriesWF t) (r : String) :
    (membersOf t r).Nodup := by
  induction t with
  | nil => simp [membersOf]
  | cons p t ih =>
    obtain ⟨k, v⟩ := p
    have hkv := hwf (k, v) (by simp)
    have hwf' : entriesWF t := fun p hp => hwf p (by simp [hp])
    by_cases hk : k = r
    · simpa [membersOf, hk] using hkv.2
    · simpa [membersOf, hk] using ih hwf'

theorem membersOf_eraseEntry_self {t : Table} (c : String) (hnd : keysNodup t) :
    membersOf (eraseEntry t c) c = [] := by
  induction t with
  | nil => rfl
  | cons p t ih =>
    obtain ⟨k, v⟩ := p
    have hnd0 := List.nodup_cons.mp hnd
    by_cases hk : k = c
    · subst hk
      simpa [eraseEntry] using membersOf_eq_nil_of_not_mem_keys hnd0.1
    · simp only [eraseEntry, if_neg hk, membersOf, if_neg hk]
      exact ih hnd0.2

theorem membersOf_eraseEntry_ne (t : Table) (c q : String) (hq : q ≠ c) :
    membersOf (eraseEntry t c) q = membersOf t q := by
  induction t with
  | nil => rfl
  | cons p t ih =>
    obtain ⟨k, v⟩ := p
    by_cases hk : k = c
    · subst hk
      have : ¬ k = q := fun e => hq e.symm
      simp [eraseEntry, membersOf, this]
    · by_cases hkq : k = q
      · subst hkq
        simp [eraseEntry, hk, membersOf]
      · simp only [eraseEntry, if_neg hk, membersOf, if_neg hkq]
        exact ih

theorem leave_of_not_mem (t : Table) (r c : String)
    (hwf : ∀ p ∈ t, p.2 ≠ []) (hc : c ∉ membersOf t r) :
    leave t r c = t := by
  induction t with
  | nil => rfl
  | cons p t ih =>
    obtain ⟨k, v⟩ := p
    by_cases hk : k = r
    · subst hk
      have hv : c ∉ v := by simpa [membersOf] using hc
      have herase : v.erase c = v := List.erase_of_not_mem hv
      have hne : v ≠ [] := hwf (k, v) (by simp)
      simp [leave, herase, hne]
    · have hc' : c ∉ membersOf t r := by simpa [membersOf, hk] using hc
      have hwf' : ∀ p ∈ t, p.2 ≠ [] := fun p hp => hwf p (by simp [hp])
      simp [leave, hk, ih hwf' hc']

/-- Connection Registry (spec §4.2): connection id ↦ authenticated user id. -/
abbrev Registry := List (String × String)

/-- Modelled from the spec (§4.2 `lookup(connectionId) → userId | not-found`). -/
def lookupUser : Registry → String → Option String
  | [], _ => none
  | (k, u) :: t, c => if k = c then some u else lookupUser t c

/-- Removes a connection's registry entry (the registry half of §4.2's
`unregister`). -/
def eraseConn : Registry → String → Registry
  | [], _ => []
  | (k, u) :: t, c => if k = c then t else (k, u) :: eraseConn t c

theorem lookupUser_eq_none_of_not_mem_keys {t : Registry} {c : String}
    (h : c ∉ t.map Prod.fst) : lookupUser t c = none := by
  induction t with
  | nil => rfl
  | cons p t ih =>
    obtain ⟨k, u⟩ := p
    simp only [List.map_cons, List.mem_cons] at h
    push_neg at h
    have hk : ¬ k = c := fun e => h.1 e.symm
    simp only [lookupUser, if_neg hk]
    exact ih h.2

theorem keys_eraseConn_sublist (t : Registry) (c : String) :
    List.Sublist ((eraseConn t c).map Prod.fst) (t.map Prod.fst) := by
  induction t with
  | nil => simp [eraseConn]
  | cons p t ih =>
    obtain ⟨k, u⟩ := p
    by_cases hk : k = c
    · simp only [eraseConn, if_pos hk, List.map_cons]
      exact List.sublist_cons_self _ _
    · simp only [eraseConn, if_neg hk, List.map_cons]
      exact List.Sublist.cons₂ _ ih

theorem lookupUser_eraseConn_self {t : Registry} (c : String)
    (hnd : (t.map Prod.fst).Nodup) : lookupUser (eraseConn t c) c = none := by
  induction t with
  | nil => rfl
  | cons p t ih =>
    obtain ⟨k, u⟩ := p
    have hnd0 := List.nodup_cons.mp hnd
    by_cases hk : k = c
    · subst hk
      simpa [eraseConn] using lookupUser_eq_none_of_not_mem_keys hnd0.1
    · simp only [eraseConn, if_neg hk, lookupUser, if_neg hk]
      exact ih hnd0.2

theorem lookupUser_eraseConn_ne (t : Registry) (c q : String) (hq : q ≠ c) :
    lookupUser (eraseConn t c) q = lookupUser t q := by
  induction t with
  | nil => rfl
  | cons p t ih =>
    obtain ⟨k, u⟩ := p
    by_cases hk : k = c
    · subst hk
      have : ¬ k = q := fun e => hq e.symm
      simp [eraseConn, lookupUser, this]
    · by_cases hkq : k = q
      · subst hkq
        simp [eraseConn, hk, lookupUser]
      · simp only [eraseConn, if_neg hk, lookupUser, if_neg hkq]
        exact ih

theorem eraseConn_of_not_found {t : Registry} {c : String}
    (h : lookupUser t c = none) : eraseConn t c = t := by
  induction t with
  | nil => rfl
  | cons p t ih =>
    obtain ⟨k, u⟩ := p
    by_cases hk : k = c
    · simp [lookupUser, hk] at h
    · simp only [lookupUser, if_neg hk] at h
      simp [eraseConn, hk, ih h]

/-- The process-wide shared state of the real-time layer: the Connection
Registry (connection ↦ user; plus its connection ↦ rooms view) and the Room
Membership Index (room ↦ member connections).  Modelled from the spec §2/§3;
at runtime this state lives inside the socket.io server object. -/
structure SysState where
  registry : Registry
  connRooms : Table
  index : Table
deriving DecidableEq

/-- Initial state: no connections, no rooms. -/
def init : SysState := ⟨[], [], []⟩

/-- Modelled from the spec (§4.2 `register`): inserts a new live entry; a
second register for the same connection id is a defect and the offending
operation is dropped (§7(c)). -/
def register (c u : String) (s : SysState) : SysState :=
  match lookupUser s.registry c with
  | some _ => s
  | none => { s with registry := (c, u) :: s.registry }

/-- Modelled from the spec (§4.2 `unregister`): removes the registry entry and
returns the connection's final room set so the caller can evict it from each
of those rooms; idempotent for absent connections. -/
def unregister (c : String) (s : SysState) : List String × SysState :=
  (membersOf s.connRooms c,
   { s with registry := eraseConn s.registry c,
            connRooms := eraseEntry s.connRooms c })

/-- Join of a connection to a room, updating both sides of the membership
mapping (spec §3 invariant + §4.3 `join`); a join from a connection that is
not (or no longer) registered is dropped (§5: "a disconnect must always win"). -/
def joinRoom (c r : String) (s : SysState) : SysState :=
  match lookupUser s.registry c with
  | none => s
  | some _ =>
    { s with connRooms := join s.connRooms c r, index := join s.index r c }

/-- Leave of a room, updating both sides (spec §4.3 `leave`); dropped for
unregistered connections (§5). -/
def leaveRoom (c r : String) (s : SysState) : SysState :=
  match lookupUser s.registry c with
  | none => s
  | some _ =>
    { s with connRooms := leave s.connRooms c r, index := leave s.index r c }

/-- Disconnect cleanup (spec §4.6, performed by the socket.io runtime for the
src disconnect handler at lines 193-195): unregister, then Room Membership
Index `leave` for each room of the returned final room set. -/
def disconnect (c : String) (s : SysState) : SysState :=
  let p := unregister c s
  { p.2 with index := p.1.foldl (fun i r => leave i r c) p.2.index }

/-- Personal room identifier as built by the source (src line 180:
socket.join with the template `user_${socket.userId}`). -/
def personalRoom (userId : String) : String := "user_" ++ userId

/-- Conversation room identifier as built by the source (src lines 184 and
189: `conversation_${conversationId}`). -/
def conversationRoom (conversationId : String) : String :=
  "conversation_" ++ conversationId

/-- Connection establishment, from src lines 172-180: io.use(socketAuth)
authenticates the handshake credential (the middleware itself is not under
src; it is modelled from spec §4.1 as a function from token to optional user
id, `none` meaning the connection is refused before any room logic runs), and
the connection handler then performs the single automatic join into the
personal room.  A connect for an already-registered connection id is a defect
and is dropped (§7(c)). -/
def connect (auth : String → Option String) (c token : String)
    (s : SysState) : SysState :=
  match auth token with
  | none => s
  | some u =>
    match lookupUser s.registry c with
    | some _ => s
    | none => joinRoom c (personalRoom u) (register c u s)

/-- The joinConversation handler, from src lines 183-185: it joins the
conversation room unconditionally — no participancy check against the data
store appears in the source. -/
def handleJoinConversation (c conversationId : String) (s : SysState) :
    SysState :=
  joinRoom c (conversationRoom conversationId) s

/-- The leaveConversation handler, from src lines 188-190: unconditional
leave of the conversation room. -/
def handleLeaveConversation (c conversationId : String) (s : SysState) :
    SysState :=
  leaveRoom c (conversationRoom conversationId) s

theorem mem_membersOf_join_self (t : Table) (r c : String) :
    c ∈ membersOf (join t r c) r := by
  rw [membersOf_join]
  simp only [if_pos rfl]
  by_cases hc : c ∈ membersOf t r <;> simp [hc]

theorem join_iterate (t : Table) (r c : String) (n : Nat) (hn : 1 ≤ n) :
    (fun x => join x r c)^[n] t = join t r c := by
  induction n with
  | zero => exact absurd hn (by omega)
  | succ m ih =>
    rw [Function.iterate_succ_apply']
    by_cases hm : m = 0
    · subst hm; simp
    · rw [ih (by omega)]
      exact join_join t r c

/-- C1 (counterexample): the claim says that joinConversation verifies, via
the data store, that the authenticated user is a participant, and that a
non-participant's request causes no membership change.  The source performs no
such check: starting from a state with one registered connection "c1" of user
"u1" and an empty index — so that under any participancy relation making "u1"
a participant of no conversation (e.g. the constant-false relation) the claim
demands no membership change — the join request for conversation "9" changes
the state and admits "c1" into room "conversation_9". -/
theorem joinConversation_unverified_counterexample :
    handleJoinConversation "c1" "9" ⟨[("c1", "u1")], [], []⟩ ≠
        (⟨[("c1", "u1")], [], []⟩ : SysState) ∧
      "c1" ∈ membersOf
          (handleJoinConversation "c1" "9" ⟨[("c1", "u1")], [], []⟩).index
          (conversationRoom "9") ∧
      "c1" ∉ membersOf ((⟨[("c1", "u1")], [], []⟩ : SysState)).index
          (conversationRoom "9") := by
  refine ⟨?_, ?_, ?_⟩ <;> decide

/-- C1 (amended): joinConversation admits the join unconditionally — for every
state and every registered connection, the handler joins the connection to
room "conversation_" ++ conversationId without consulting any participancy
information, and no error is surfaced (the handler is a total function);
requests from unregistered connections are ignored. -/
theorem joinConversation_admits_unconditionally (s : SysState)
    (c conversationId u : String)
    (h : lookupUser s.registry c = some u) :
    c ∈ membersOf (handleJoinConversation c conversationId s).index
        (conversationRoom conversationId) := by
  unfold handleJoinConversation joinRoom
  rw [h]
  exact mem_membersOf_join_self ..

/-- Witness for the amended C1 at a concrete registered connection. -/
theorem joinConversation_admits_unconditionally_witness :
    "c1" ∈ membersOf
        (handleJoinConversation "c1" "9" ⟨[("c1", "u1")], [], []⟩).index
        (conversationRoom "9") :=
  joinConversation_admits_unconditionally ⟨[("c1", "u1")], [], []⟩ "c1" "9" "u1"
    (by decide)

/-- C2 (counterexample): the claim says the automatic join at registration is
into the room "user:" ++ userId.  The source (src line 180) builds the room id
with an underscore: `user_${userId}`.  Connecting "c1" with a token resolving
to user "u1" joins room "user_u1" and not "user:u1". -/
theorem connect_personal_room_name_counterexample :
    membersOf (connect (fun t => some t) "c1" "u1" init).connRooms "c1" =
        ["user_u1"] ∧
      "c1" ∈ membersOf (connect (fun t => some t) "c1" "u1" init).index
          "user_u1" ∧
      "c1" ∉ membersOf (connect (fun t => some t) "c1" "u1" init).index
          "user:u1" ∧
      membersOf (connect (fun t => some t) "c1" "u1" init).connRooms "c1" ≠
        ["user:u1"] := by
  refine ⟨?_, ?_, ?_, ?_⟩ <;> decide

/-- C2 (amended): for every connection whose authentication succeeds with
resolved userId, the server performs exactly one automatic join, into the
personal room "user_" ++ userId (underscore separator, per src line 180), at
connection-registration time, before any client-initiated join/leave request
of that connection is processed (the connect transition is atomic here, and
the handlers only run for already-registered connections): right after
connect, the connection's recorded room set is exactly the one-element list
holding its personal room, and the registry maps it to its user id. -/
theorem connect_single_personal_room_join (auth : String → Option String)
    (c token u : String) (s : SysState)
    (hauth : auth token = some u)
    (hfresh : lookupUser s.registry c = none)
    (hrooms : membersOf s.connRooms c = []) :
    membersOf (connect auth c token s).connRooms c = [personalRoom u] ∧
      lookupUser (connect auth c token s).registry c = some u := by
  unfold connect
  rw [hauth, hfresh]
  unfold register
  rw [hfresh]
  unfold joinRoom
  simp only [lookupUser, eq_self_iff_true, ite_true, if_true]
  constructor
  · rw [membersOf_join]
    simp [hrooms]
  · simp [lookupUser]

/-- Witness for the amended C2: a fresh connection on the empty state. -/
theorem connect_single_personal_room_join_witness :
    membersOf (connect (fun t => some t) "c1" "u1" init).connRooms "c1" =
        [personalRoom "u1"] ∧
      lookupUser (connect (fun t => some t) "c1" "u1" init).registry "c1" =
        some "u1" :=
  connect_single_personal_room_join (fun t => some t) "c1" "u1" "u1" init rfl
    (by decide) (by decide)

/-- C6: join is idempotent — joining N times (N ≥ 1) equals joining once —
and leave is idempotent — leaving when absent is a no-op (on any index with
no lingering empty rooms, which every reachable index satisfies); consequently
leaveConversation may be issued unconditionally, including for conversation
rooms the connection never joined, with no error: the handler leaves the
state unchanged there. -/
theorem join_leave_idempotence (idx : Table) (r c : String) (n : Nat)
    (s : SysState) (cid conv : String)
    (hn : 1 ≤ n)
    (hwf : ∀ p ∈ idx, p.2 ≠ [])
    (hc : c ∉ membersOf idx r)
    (hwfI : ∀ p ∈ s.index, p.2 ≠ [])
    (hwfC : ∀ p ∈ s.connRooms, p.2 ≠ [])
    (hout : cid ∉ membersOf s.index (conversationRoom conv))
    (hout' : conversationRoom conv ∉ membersOf s.connRooms cid) :
    (fun x => join x r c)^[n] idx = join idx r c ∧
      leave idx r c = idx ∧
      handleLeaveConversation cid conv s = s := by
  refine ⟨join_iterate idx r c n hn, leave_of_not_mem idx r c hwf hc, ?_⟩
  unfold handleLeaveConversation leaveRoom
  cases hl : lookupUser s.registry cid with
  | none => rfl
  | some u =>
    cases s with
    | mk reg cr ix =>
      simp only
      rw [leave_of_not_mem cr cid (conversationRoom conv) hwfC hout',
        leave_of_not_mem ix (conversationRoom conv) cid hwfI hout]

/-- Witness for C6 on a concrete index, state and never-joined room. -/
theorem join_leave_idempotence_witness :
    (fun x => join x "roomB" "y")^[2] [("roomA", ["x"])] =
        join [("roomA", ["x"])] "roomB" "y" ∧
      leave [("roomA", ["x"])] "roomB" "y" = [("roomA", ["x"])] ∧
      handleLeaveConversation "c1" "42"
          ⟨[("c1", "u1")], [("c1", ["user_u1"])], [("user_u1", ["c1"])]⟩ =
        ⟨[("c1", "u1")], [("c1", ["user_u1"])], [("user_u1", ["c1"])]⟩ :=
  join_leave_idempotence [("roomA", ["x"])] "roomB" "y" 2
    ⟨[("c1", "u1")], [("c1", ["user_u1"])], [("user_u1", ["c1"])]⟩ "c1" "42"
    (by decide) (by decide) (by decide) (by decide) (by decide) (by decide)
    (by decide)

theorem not_mem_keys_of_lookupUser_eq_none {t : Registry} {c : String}
    (h : lookupUser t c = none) : c ∉ t.map Prod.fst := by
  induction t with
  | nil => simp
  | cons p t ih =>
    obtain ⟨k, u⟩ := p
    by_cases hk : k = c
    · simp [lookupUser, hk] at h
    · simp only [lookupUser, if_neg hk] at h
      simp only [List.map_cons, List.mem_cons]
      push_neg
      exact ⟨fun e => hk e.symm, ih h⟩

theorem keysNodup_foldLeave {rs : List String} {ix : Table} {c : String}
    (hnd : keysNodup ix) :
    keysNodup (rs.foldl (fun i r => leave i r c) ix) := by
  induction rs generalizing ix with
  | nil => simpa using hnd
  | cons a rs ih => exact ih (keysNodup_leave a c hnd)

theorem entriesWF_foldLeave {rs : List String} {ix : Table} {c : String}
    (hwf : entriesWF ix) :
    entriesWF (rs.foldl (fun i r => leave i r c) ix) := by
  induction rs generalizing ix with
  | nil => simpa using hwf
  | cons a rs ih => exact ih (entriesWF_leave a c hwf)

theorem membersOf_foldLeave_other {rs : List String} {ix : Table}
    {c c' r : String} (hnd : keysNodup ix) (hne : c' ≠ c) :
    c' ∈ membersOf (rs.foldl (fun i r => leave i r c) ix) r ↔
      c' ∈ membersOf ix r := by
  induction rs generalizing ix with
  | nil => simp
  | cons a rs ih =>
    simp only [List.foldl_cons]
    rw [ih (keysNodup_leave a c hnd)]
    rw [membersOf_leave ix a c r hnd]
    by_cases hr : r = a
    · subst hr
      simp [List.mem_erase_of_ne hne]
    · simp [hr]

theorem not_mem_foldLeave_of_not_mem {rs : List String} {ix : Table}
    {c r : String} (hnd : keysNodup ix) (h : c ∉ membersOf ix r) :
    c ∉ membersOf (rs.foldl (fun i r => leave i r c) ix) r := by
  induction rs generalizing ix with
  | nil => simpa using h
  | cons a rs ih =>
    simp only [List.foldl_cons]
    refine ih (keysNodup_leave a c hnd) ?_
    rw [membersOf_leave ix a c r hnd]
    by_cases hr : r = a
    · subst hr
      simp only [if_pos rfl]
      exact fun hm => h (List.mem_of_mem_erase hm)
    · simpa [hr] using h

theorem not_mem_foldLeave_of_mem {rs : List String} {ix : Table}
    {c r : String} (hnd : keysNodup ix) (hwf : entriesWF ix) (hr : r ∈ rs) :
    c ∉ membersOf (rs.foldl (fun i r => leave i r c) ix) r := by
  induction rs generalizing ix with
  | nil => simp at hr
  | cons a rs ih =>
    simp only [List.foldl_cons]
    rcases List.mem_cons.mp hr with h | h
    · subst h
      refine not_mem_foldLeave_of_not_mem (keysNodup_leave r c hnd) ?_
      rw [membersOf_leave ix r c r hnd]
      simp only [if_pos rfl]
      exact (membersOf_nodup hwf r).not_mem_erase
    · exact ih (keysNodup_leave a c hnd) (entriesWF_leave a c hwf) h

/-- Well-formedness of the shared state: each map has pairwise-distinct keys,
and every recorded room/member list is a nonempty duplicate-free set.  These
hold of every state reachable from `init`. -/
def SysWF (s : SysState) : Prop :=
  (s.registry.map Prod.fst).Nodup ∧ keysNodup s.connRooms ∧
    keysNodup s.index ∧ entriesWF s.connRooms ∧ entriesWF s.index

instance (s : SysState) : Decidable (SysWF s) := by
  unfold SysWF; infer_instance

/-- Symmetry of the two membership views (spec §3): connection `c` is recorded
as a member of room `r` in the connection → rooms mapping iff it is recorded
so in the room → connections mapping. -/
def symmetric (s : SysState) : Prop :=
  ∀ c r, r ∈ membersOf s.connRooms c ↔ c ∈ membersOf s.index r

theorem sysWF_register (c u : String) {s : SysState} (hwf : SysWF s) :
    SysWF (register c u s) := by
  obtain ⟨h1, h2, h3, h4, h5⟩ := hwf
  unfold register
  cases hl : lookupUser s.registry c with
  | some v => exact ⟨h1, h2, h3, h4, h5⟩
  | none =>
    refine ⟨?_, h2, h3, h4, h5⟩
    simp only [List.map_cons]
    exact List.nodup_cons.mpr ⟨not_mem_keys_of_lookupUser_eq_none hl, h1⟩

theorem symmetric_register (c u : String) {s : SysState}
    (hsym : symmetric s) : symmetric (register c u s) := by
  unfold register
  cases lookupUser s.registry c with
  | some v => exact hsym
  | none => exact hsym

theorem sysWF_joinRoom (c r : String) {s : SysState} (hwf : SysWF s) :
    SysWF (joinRoom c r s) := by
  obtain ⟨h1, h2, h3, h4, h5⟩ := hwf
  unfold joinRoom
  cases lookupUser s.registry c with
  | none => exact ⟨h1, h2, h3, h4, h5⟩
  | some v =>
    exact ⟨h1, keysNodup_join c r h2, keysNodup_join r c h3,
      entriesWF_join c r h4, entriesWF_join r c h5⟩

theorem symmetric_joinRoom (c r : String) {s : SysState}
    (hsym : symmetric s) : symmetric (joinRoom c r s) := by
  unfold joinRoom
  cases lookupUser s.registry c with
  | none => exact hsym
  | some v =>
    intro c' r'
    show r' ∈ membersOf (join s.connRooms c r) c' ↔
      c' ∈ membersOf (join s.index r c) r'
    rw [membersOf_join s.connRooms c r c', membersOf_join s.index r c r']
    by_cases hc' : c' = c
    · subst hc'
      by_cases hr' : r' = r
      · subst hr'
        simp only [if_pos rfl]
        by_cases h1 : r' ∈ membersOf s.connRooms c' <;>
          by_cases h2 : c' ∈ membersOf s.index r' <;> simp [h1, h2]
      · simp only [if_pos rfl, if_neg hr']
        by_cases h1 : r ∈ membersOf s.connRooms c'
        · simp [h1, hsym c' r']
        · simp [h1, hr', hsym c' r']
    · by_cases hr' : r' = r
      · subst hr'
        simp only [if_neg hc', if_pos rfl]
        by_cases h2 : c ∈ membersOf s.index r'
        · simp [h2, hsym c' r']
        · simp [h2, hc', hsym c' r']
      · simp only [if_neg hc', if_neg hr']
        exact hsym c' r'

theorem sysWF_leaveRoom (c r : String) {s : SysState} (hwf : SysWF s) :
    SysWF (leaveRoom c r s) := by
  obtain ⟨h1, h2, h3, h4, h5⟩ := hwf
  unfold leaveRoom
  cases lookupUser s.registry c with
  | none => exact ⟨h1, h2, h3, h4, h5⟩
  | some v =>
    exact ⟨h1, keysNodup_leave c r h2, keysNodup_leave r c h3,
      entriesWF_leave c r h4, entriesWF_leave r c h5⟩

theorem symmetric_leaveRoom (c r : String) {s : SysState} (hwf : SysWF s)
    (hsym : symmetric s) : symmetric (leaveRoom c r s) := by
  obtain ⟨h1, h2, h3, h4, h5⟩ := hwf
  unfold leaveRoom
  cases lookupUser s.registry c with
  | none => exact hsym
  | some v =>
    intro c' r'
    show r' ∈ membersOf (leave s.connRooms c r) c' ↔
      c' ∈ membersOf (leave s.index r c) r'
    rw [membersOf_leave s.connRooms c r c' h2, membersOf_leave s.index r c r' h3]
    by_cases hc' : c' = c
    · subst hc'
      by_cases hr' : r' = r
      · subst hr'
        simp only [if_pos rfl]
        constructor
        · intro hm; exact absurd hm (membersOf_nodup h4 c').not_mem_erase
        · intro hm; exact absurd hm (membersOf_nodup h5 r').not_mem_erase
      · simp only [if_pos rfl, if_neg hr', eq_self_iff_true, ite_true, if_true]
        rw [List.mem_erase_of_ne hr']
        exact hsym c' r'
    · by_cases hr' : r' = r
      · subst hr'
        simp only [if_neg hc', if_pos rfl, eq_self_iff_true, ite_true, if_true]
        rw [List.mem_erase_of_ne hc']
        exact hsym c' r'
      · simp only [if_neg hc', if_neg hr']
        exact hsym c' r'

theorem sysWF_disconnect (c : String) {s : SysState} (hwf : SysWF s) :
    SysWF (disconnect c s) := by
  obtain ⟨h1, h2, h3, h4, h5⟩ := hwf
  exact ⟨List.Nodup.sublist (keys_eraseConn_sublist s.registry c) h1,
    keysNodup_eraseEntry c h2, keysNodup_foldLeave h3,
    entriesWF_eraseEntry c h4, entriesWF_foldLeave h5⟩

theorem symmetric_disconnect (c : String) {s : SysState} (hwf : SysWF s)
    (hsym : symmetric s) : symmetric (disconnect c s) := by
  obtain ⟨h1, h2, h3, h4, h5⟩ := hwf
  intro c' r'
  show r' ∈ membersOf (eraseEntry s.connRooms c) c' ↔
    c' ∈ membersOf ((membersOf s.connRooms c).foldl
      (fun i r => leave i r c) s.index) r'
  by_cases hc' : c' = c
  · subst hc'
    have hnone : c' ∉ membersOf ((membersOf s.connRooms c').foldl
        (fun i r => leave i r c') s.index) r' := by
      by_cases hr : r' ∈ membersOf s.connRooms c'
      · exact not_mem_foldLeave_of_mem h3 h5 hr
      · exact not_mem_foldLeave_of_not_mem h3
          (fun hm => hr ((hsym c' r').mpr hm))
    rw [membersOf_eraseEntry_self c' h2]
    simp [hnone]
  · rw [membersOf_eraseEntry_ne s.connRooms c c' hc']
    rw [membersOf_foldLeave_other h3 hc']
    exact hsym c' r'

/-- The state-changing operations the real-time layer completes at its
boundary (spec §2 control flow): registering a connection, joining and leaving
a room, and the disconnect cleanup of §4.6 (the §4.2 unregister composed with
the mandated eviction from every room of its returned final room set). -/
inductive Op where
  | register (c u : String)
  | joinRoom (c r : String)
  | leaveRoom (c r : String)
  | disconnect (c : String)
deriving DecidableEq

def applyOp : Op → SysState → SysState
  | .register c u, s => register c u s
  | .joinRoom c r, s => joinRoom c r s
  | .leaveRoom c r, s => leaveRoom c r s
  | .disconnect c, s => disconnect c s

/-- Helper: symmetry of the one-connection, one-room state. -/
theorem symmetric_single (c u r : String) :
    symmetric ⟨[(c, u)], [(c, [r])], [(r, [c])]⟩ := by
  intro c' r'
  simp only [membersOf]
  by_cases hc : c = c' <;> by_cases hr : r = r'
  · simp [hc, hr]
  · simp only [if_pos hc, if_neg hr, List.mem_singleton, List.not_mem_nil,
      iff_false]
    exact fun e => hr e.symm
  · simp only [if_neg hc, if_pos hr, List.mem_singleton, List.not_mem_nil,
      false_iff]
    exact fun e => hc e.symm
  · simp [hc, hr]

/-- C7 counterexample: the claim counts `unregister` alone among the completed
operations after which the two views must agree.  But §4.2's unregister only
removes the registry entry and returns the room set for the caller to apply:
on a symmetric well-formed state in which "c1" is a member of room "r", the
bare unregister leaves "c1" inside the index entry of "r" while its
connection → rooms record is gone, so the two views disagree. -/
theorem unregister_asymmetry_counterexample :
    SysWF ⟨[("c1", "u1")], [("c1", ["r"])], [("r", ["c1"])]⟩ ∧
      symmetric ⟨[("c1", "u1")], [("c1", ["r"])], [("r", ["c1"])]⟩ ∧
      ¬ symmetric
        (unregister "c1" ⟨[("c1", "u1")], [("c1", ["r"])], [("r", ["c1"])]⟩).2 := by
  refine ⟨by decide, symmetric_single "c1" "u1" "r", fun h => ?_⟩
  exact absurd ((h "c1" "r").mpr (by decide)) (by decide)

/-- C7 (amended): after every completed operation at the layer's boundary —
register, join, leave, and disconnect cleanup (unregister composed with the
eviction of the connection from every room of its returned room set, per
§4.2/§4.6) — the connection → rooms mapping and the room → connections
mapping are symmetric: connection c is recorded as a member of room r in one
iff in the other (and well-formedness is preserved).  The registry half of
unregister taken alone is not a completed operation in this sense; see the
counterexample. -/
theorem membership_views_symmetric (op : Op) (s : SysState)
    (hwf : SysWF s) (hsym : symmetric s) :
    SysWF (applyOp op s) ∧ symmetric (applyOp op s) := by
  cases op with
  | register c u =>
    exact ⟨sysWF_register c u hwf, symmetric_register c u hsym⟩
  | joinRoom c r =>
    exact ⟨sysWF_joinRoom c r hwf, symmetric_joinRoom c r hsym⟩
  | leaveRoom c r =>
    exact ⟨sysWF_leaveRoom c r hwf, symmetric_leaveRoom c r hwf hsym⟩
  | disconnect c =>
    exact ⟨sysWF_disconnect c hwf, symmetric_disconnect c hwf hsym⟩

/-- Witness for the amended C7: a concrete join on a symmetric state. -/
theorem membership_views_symmetric_witness :
    SysWF (applyOp (Op.joinRoom "c1" "conversation_7")
        ⟨[("c1", "u1")], [("c1", ["r"])], [("r", ["c1"])]⟩) ∧
      symmetric (applyOp (Op.joinRoom "c1" "conversation_7")
        ⟨[("c1", "u1")], [("c1", ["r"])], [("r", ["c1"])]⟩) :=
  membership_views_symmetric (Op.joinRoom "c1" "conversation_7")
    ⟨[("c1", "u1")], [("c1", ["r"])], [("r", ["c1"])]⟩ (by decide)
    (symmetric_single "c1" "u1" "r")

/-- C3: for every connection and every room, after the disconnect transition
the connection is a member of no room in the index (in particular of every
room it was a member of at disconnect time it has been removed), and no room
entry with an empty member set remains in the index (a room emptied by the
removal has its entry deleted). -/
theorem disconnect_purges_connection (s : SysState) (c : String)
    (hwf : SysWF s) (hsym : symmetric s) :
    (∀ r, c ∉ membersOf (disconnect c s).index r) ∧
      (∀ p ∈ (disconnect c s).index, p.2 ≠ []) := by
  obtain ⟨h1, h2, h3, h4, h5⟩ := hwf
  constructor
  · intro r
    show c ∉ membersOf ((membersOf s.connRooms c).foldl
      (fun i r => leave i r c) s.index) r
    by_cases hr : r ∈ membersOf s.connRooms c
    · exact not_mem_foldLeave_of_mem h3 h5 hr
    · exact not_mem_foldLeave_of_not_mem h3 (fun hm => hr ((hsym c r).mpr hm))
  · intro p hp
    exact (entriesWF_foldLeave h5 p hp).1

/-- Witness for C3, instantiating the spec §8 scenario: room
"conversation_42" has connection "A" as its only member; after disconnecting
"A", "A" is in no room and no (empty) entry for "conversation_42" survives. -/
theorem disconnect_purges_connection_witness :
    (∀ r, "A" ∉ membersOf
        (disconnect "A"
          ⟨[("A", "uA")], [("A", ["conversation_42"])],
            [("conversation_42", ["A"])]⟩).index r) ∧
      (∀ p ∈ (disconnect "A"
          ⟨[("A", "uA")], [("A", ["conversation_42"])],
            [("conversation_42", ["A"])]⟩).index, p.2 ≠ []) :=
  disconnect_purges_connection
    ⟨[("A", "uA")], [("A", ["conversation_42"])], [("conversation_42", ["A"])]⟩
    "A" (by decide) (symmetric_single "A" "uA" "conversation_42")

/-- Modelled from the spec (§4.7 `dispatch(roomId, eventKind, payload)`,
realized at runtime by io.to(room).emit, i.e. the socket.io adapter broadcast,
not repository code): looks up the room's current member set and delivers the
(eventKind, payload) event to each member; the result lists the deliveries
performed, as (connectionId, eventKind, payload) triples. -/
def dispatch (s : SysState) (roomId eventKind payload : String) :
    List (String × String × String) :=
  (membersOf s.index roomId).map (fun c => (c, eventKind, payload))

/-- C5: dispatch delivers the event to exactly the set of current members of
the room and to no connection outside it — a delivery (c, k', p') occurs iff
(k', p') is the dispatched event and c is a member — and the number of
deliveries equals the number of members, so dispatch to a room with an empty
member set delivers to no one; the function is total, so it completes without
error. -/
theorem dispatch_exactly_members (s : SysState)
    (roomId k p c k' p' : String) :
    ((c, k', p') ∈ dispatch s roomId k p ↔
      k' = k ∧ p' = p ∧ c ∈ membersOf s.index roomId) ∧
      (dispatch s roomId k p).length = (membersOf s.index roomId).length := by
  constructor
  · constructor
    · intro hm
      simp only [dispatch, List.mem_map, Prod.mk.injEq] at hm
      obtain ⟨x, hx, hxc, hk, hp⟩ := hm
      exact ⟨hk.symm, hp.symm, hxc ▸ hx⟩
    · rintro ⟨hk, hp, hc⟩
      subst hk; subst hp
      simp only [dispatch, List.mem_map]
      exact ⟨c, hc, rfl⟩
  · simp [dispatch]

/-- Client/transport events as seen by the server (src lines 176-196):
connection attempts carrying the handshake credential, conversation
join/leave messages, and disconnects. -/
inductive Ev where
  | connect (c token : String)
  | joinConv (c conv : String)
  | leaveConv (c conv : String)
  | disconnect (c : String)
deriving DecidableEq

/-- One server step per event, per the src handlers; transport admission is
modelled from the spec (§4.1/§6): a connection refused by socketAuth is never
admitted, and the per-socket handler closures of src lines 183-195 exist only
for admitted (registered) connections, so room requests from unadmitted
connections are dropped. -/
def step (auth : String → Option String) (s : SysState) : Ev → SysState
  | .connect c token => connect auth c token s
  | .joinConv c conv => handleJoinConversation c conv s
  | .leaveConv c conv => handleLeaveConversation c conv s
  | .disconnect c => disconnect c s

/-- Run a list of events from a state. -/
def run (auth : String → Option String) (s : SysState) (tr : List Ev) :
    SysState :=
  tr.foldl (step auth) s

/-- No trace of connection c anywhere in the state: not registered, no
recorded room set, member of no room. -/
def untouched (c : String) (s : SysState) : Prop :=
  lookupUser s.registry c = none ∧ membersOf s.connRooms c = [] ∧
    ∀ r, c ∉ membersOf s.index r

theorem untouched_init (c : String) : untouched c init :=
  ⟨rfl, rfl, fun r => by simp [init, membersOf]⟩

theorem sysWF_connect (auth : String → Option String) (c token : String)
    {s : SysState} (hwf : SysWF s) : SysWF (connect auth c token s) := by
  unfold connect
  cases auth token with
  | none => exact hwf
  | some u =>
    cases lookupUser s.registry c with
    | some v => exact hwf
    | none => exact sysWF_joinRoom c (personalRoom u) (sysWF_register c u hwf)

theorem sysWF_step (auth : String → Option String) (ev : Ev) {s : SysState}
    (hwf : SysWF s) : SysWF (step auth s ev) := by
  cases ev with
  | connect c token => exact sysWF_connect auth c token hwf
  | joinConv c conv => exact sysWF_joinRoom c (conversationRoom conv) hwf
  | leaveConv c conv => exact sysWF_leaveRoom c (conversationRoom conv) hwf
  | disconnect c => exact sysWF_disconnect c hwf

theorem untouched_register {c : String} {s : SysState} (c' u : String)
    (hne : c' ≠ c) (hu : untouched c s) : untouched c (register c' u s) := by
  obtain ⟨hr, hcr, hix⟩ := hu
  unfold register
  cases lookupUser s.registry c' with
  | some v => exact ⟨hr, hcr, hix⟩
  | none =>
    refine ⟨?_, hcr, hix⟩
    show lookupUser ((c', u) :: s.registry) c = none
    simp only [lookupUser, if_neg hne]
    exact hr

theorem untouched_joinRoom {c : String} {s : SysState} (c' r : String)
    (hne : c' ≠ c) (hu : untouched c s) : untouched c (joinRoom c' r s) := by
  obtain ⟨hr, hcr, hix⟩ := hu
  unfold joinRoom
  cases lookupUser s.registry c' with
  | none => exact ⟨hr, hcr, hix⟩
  | some v =>
    refine ⟨hr, ?_, ?_⟩
    · show membersOf (join s.connRooms c' r) c = []
      rw [membersOf_join, if_neg (fun e => hne e.symm)]
      exact hcr
    · intro q
      show c ∉ membersOf (join s.index r c') q
      rw [membersOf_join]
      by_cases hq : q = r
      · rw [if_pos hq]
        by_cases hm : c' ∈ membersOf s.index r
        · rw [if_pos hm]
          subst hq
          exact hix q
        · rw [if_neg hm]
          intro hmem
          subst hq
          rcases List.mem_cons.mp hmem with h | h
          · exact hne h.symm
          · exact hix q h
      · rw [if_neg hq]
        exact hix q

theorem untouched_leaveRoom {c : String} {s : SysState} (c' r : String)
    (hwf : SysWF s) (hne : c' ≠ c) (hu : untouched c s) :
    untouched c (leaveRoom c' r s) := by
  obtain ⟨h1, h2, h3, h4, h5⟩ := hwf
  obtain ⟨hr, hcr, hix⟩ := hu
  unfold leaveRoom
  cases lookupUser s.registry c' with
  | none => exact ⟨hr, hcr, hix⟩
  | some v =>
    refine ⟨hr, ?_, ?_⟩
    · show membersOf (leave s.connRooms c' r) c = []
      rw [membersOf_leave _ _ _ _ h2, if_neg (fun e => hne e.symm)]
      exact hcr
    · intro q
      show c ∉ membersOf (leave s.index r c') q
      rw [membersOf_leave _ _ _ _ h3]
      by_cases hq : q = r
      · rw [if_pos hq]
        subst hq
        exact fun hm => hix q (List.mem_of_mem_erase hm)
      · rw [if_neg hq]
        exact hix q

theorem untouched_disconnect {c : String} {s : SysState} (c' : String)
    (hwf : SysWF s) (hu : untouched c s) : untouched c (disconnect c' s) := by
  obtain ⟨h1, h2, h3, h4, h5⟩ := hwf
  obtain ⟨hr, hcr, hix⟩ := hu
  by_cases hne : c' = c
  · subst hne
    refine ⟨?_, ?_, ?_⟩
    · show lookupUser (eraseConn s.registry c') c' = none
      exact lookupUser_eraseConn_self c' h1
    · show membersOf (eraseEntry s.connRooms c') c' = []
      exact membersOf_eraseEntry_self c' h2
    · intro q
      show c' ∉ membersOf ((membersOf s.connRooms c').foldl
        (fun i r => leave i r c') s.index) q
      exact not_mem_foldLeave_of_not_mem h3 (hix q)
  · have hne' : c ≠ c' := fun e => hne e.symm
    refine ⟨?_, ?_, ?_⟩
    · show lookupUser (eraseConn s.registry c') c = none
      rw [lookupUser_eraseConn_ne s.registry c' c hne']
      exact hr
    · show membersOf (eraseEntry s.connRooms c') c = []
      rw [membersOf_eraseEntry_ne s.connRooms c' c hne']
      exact hcr
    · intro q
      show c ∉ membersOf ((membersOf s.connRooms c').foldl
        (fun i r => leave i r c') s.index) q
      rw [membersOf_foldLeave_other h3 hne']
      exact hix q

theorem untouched_step (auth : String → Option String) {c : String}
    {s : SysState} (ev : Ev) (hwf : SysWF s) (hu : untouched c s)
    (hfail : ∀ t, ev = Ev.connect c t → auth t = none) :
    untouched c (step auth s ev) := by
  cases ev with
  | connect c' token =>
    by_cases hne : c' = c
    · subst hne
      have hA := hfail token rfl
      show untouched c' (connect auth c' token s)
      unfold connect
      rw [hA]
      exact hu
    · show untouched c (connect auth c' token s)
      unfold connect
      cases auth token with
      | none => exact hu
      | some u =>
        cases lookupUser s.registry c' with
        | some v => exact hu
        | none =>
          exact untouched_joinRoom c' (personalRoom u) hne
            (untouched_register c' u hne hu)
  | joinConv c' conv =>
    by_cases hne : c' = c
    · subst hne
      show untouched c' (handleJoinConversation c' conv s)
      unfold handleJoinConversation joinRoom
      rw [hu.1]
      exact hu
    · exact untouched_joinRoom c' (conversationRoom conv) hne hu
  | leaveConv c' conv =>
    by_cases hne : c' = c
    · subst hne
      show untouched c' (handleLeaveConversation c' conv s)
      unfold handleLeaveConversation leaveRoom
      rw [hu.1]
      exact hu
    · exact untouched_leaveRoom c' (conversationRoom conv) hwf hne hu
  | disconnect c' => exact untouched_disconnect c' hwf hu

theorem untouched_run (auth : String → Option String) {c : String}
    (tr : List Ev) {s : SysState} (hwf : SysWF s) (hu : untouched c s)
    (hfail : ∀ t, Ev.connect c t ∈ tr → auth t = none) :
    untouched c (run auth s tr) := by
  induction tr generalizing s with
  | nil => simpa [run] using hu
  | cons ev tr ih =>
    show untouched c (run auth (step auth s ev) tr)
    exact ih (sysWF_step auth ev hwf)
      (untouched_step auth ev hwf hu (fun t he => hfail t (by simp [he])))
      (fun t ht => hfail t (by simp [ht]))

/-- C4: for every connection attempt whose credential fails authentication —
every connect event for connection c in the trace carries a token the
verifier rejects — the connection is never entered into the Connection
Registry, the personal-room join is never performed for it, and no room logic
runs on its behalf at any later point: after every prefix of the trace,
executed from the initial empty state, c is unregistered, has no recorded
room set, and is a member of no room. -/
theorem failed_auth_never_registered (auth : String → Option String)
    (c : String) (tr : List Ev)
    (hfail : ∀ t, Ev.connect c t ∈ tr → auth t = none) :
    ∀ p, List.IsPrefix p tr → untouched c (run auth init p) := by
  intro p hp
  refine untouched_run auth p (by decide) (untouched_init c) ?_
  exact fun t ht => hfail t (hp.sublist.subset ht)

/-- Witness for C4: a refused connect followed by a join attempt from the
same connection; after the whole trace the connection left no trace in the
state. -/
theorem failed_auth_never_registered_witness :
    untouched "c1"
      (run (fun _ => none) init
        [Ev.connect "c1" "badtoken", Ev.joinConv "c1" "7"]) :=
  failed_auth_never_registered (fun _ => none) "c1"
    [Ev.connect "c1" "badtoken", Ev.joinConv "c1" "7"]
    (fun _ _ => rfl)
    [Ev.connect "c1" "badtoken", Ev.joinConv "c1" "7"]
    (List.prefix_refl _)

/-! ## Email service (src/config/emailService.js) -/

/-- Node's crypto.randomInt(min, max): an integer uniform on [min, max), the
upper bound being exclusive; the randomness source is abstracted as the extra
argument r. -/
def randomInt (lo hi r : Nat) : Nat := lo + r % (hi - lo)

/-- generateOTP (src/config/emailService.js lines 24-26): the numeric value
crypto.randomInt(100000, 999999) whose decimal rendering the source returns. -/
def generateOTP (r : Nat) : Nat := randomInt 100000 999999 r

/-- Decimal rendering of a natural number, most significant digit first: the
.toString() that generateOTP applies to its random integer. -/
def decimalString (n : Nat) : String :=
  ((Nat.digits 10 n).reverse.map Nat.digitChar).asString

theorem head?_reverse_map_append {α β : Type} (f : α → β) (L : List α)
    (x : α) : ((L ++ [x]).reverse.map f).head? = some (f x) := by
  simp [List.reverse_append]

theorem head?_reverse_map_getLast {α β : Type} (f : α → β) (L : List α)
    (h : L ≠ []) :
    (L.reverse.map f).head? = some (f (L.getLast h)) := by
  conv_lhs => rw [← List.dropLast_append_getLast h]
  exact head?_reverse_map_append f L.dropLast (L.getLast h)

theorem digitChar_isDigit {d : Nat} (hd : d < 10) :
    (Nat.digitChar d).isDigit = true := by
  interval_cases d <;> decide

theorem digitChar_ne_zero_char {d : Nat} (hd : d < 10) (h0 : d ≠ 0) :
    Nat.digitChar d ≠ '0' := by
  interval_cases d <;> simp_all <;> decide

/-- C8: every call to generateOTP returns a string of exactly 6 decimal
digits (its characters are digits), whose numeric value lies in
100000..999998 inclusive — crypto.randomInt's upper bound 999999 is
exclusive — and whose first character is never '0'. -/
theorem generateOTP_six_digits (r : Nat) :
    100000 ≤ generateOTP r ∧ generateOTP r ≤ 999998 ∧
      (decimalString (generateOTP r)).length = 6 ∧
      (∀ ch ∈ (decimalString (generateOTP r)).toList, ch.isDigit = true) ∧
      (decimalString (generateOTP r)).toList.head? ≠ some '0' := by
  have hmod : r % 899999 < 899999 := Nat.mod_lt _ (by norm_num)
  have hlo : 100000 ≤ generateOTP r := by
    unfold generateOTP randomInt
    omega
  have hhi : generateOTP r ≤ 999998 := by
    unfold generateOTP randomInt
    norm_num
    omega
  set n := generateOTP r with hn
  have hne : n ≠ 0 := by omega
  have hlog : Nat.log 10 n = 5 := by
    refine Nat.log_eq_of_pow_le_of_lt_pow ?_ ?_ <;> norm_num <;> omega
  have hdig_ne : Nat.digits 10 n ≠ [] := Nat.digits_ne_nil_iff_ne_zero.mpr hne
  have hlen : (Nat.digits 10 n).length = 6 := by
    rw [Nat.digits_len 10 n (by norm_num) hne, hlog]
  refine ⟨hlo, hhi, ?_, ?_, ?_⟩
  · show ((Nat.digits 10 n).reverse.map Nat.digitChar).length = 6
    simp [hlen]
  · intro ch hch
    have : ch ∈ (Nat.digits 10 n).reverse.map Nat.digitChar := hch
    simp only [List.mem_map, List.mem_reverse] at this
    obtain ⟨d, hd, hdc⟩ := this
    subst hdc
    exact digitChar_isDigit (Nat.digits_lt_base (by norm_num) hd)
  · show ((Nat.digits 10 n).reverse.map Nat.digitChar).head? ≠ some '0'
    rw [head?_reverse_map_getLast Nat.digitChar (Nat.digits 10 n) hdig_ne]
    intro hcontra
    have hlast_ne : (Nat.digits 10 n).getLast hdig_ne ≠ 0 :=
      Nat.getLast_digit_ne_zero 10 hne
    have hlast_lt : (Nat.digits 10 n).getLast hdig_ne < 10 :=
      Nat.digits_lt_base (by norm_num) (List.getLast_mem hdig_ne)
    have := digitChar_ne_zero_char hlast_lt hlast_ne
    exact this (Option.some.inj hcontra)

/-- Environment configuration read by the email service. -/
structure EmailEnv where
  sendgridApiKey : Option String
  sendgridFromEmail : Option String
deriving DecidableEq

/-- verifySendGridConfig (src/config/emailService.js lines 8-21): true iff
SENDGRID_API_KEY is set; an unset SENDGRID_FROM_EMAIL only logs a warning. -/
def verifySendGridConfig (env : EmailEnv) : Bool :=
  env.sendgridApiKey.isSome

/-- The result object returned by the email functions: success flag plus
optional error message. -/
structure EmailResult where
  success : Bool
  error : Option String
deriving DecidableEq

/-- An outgoing mail message as constructed by the email functions ("to" and
"from" are keywords here, hence toAddr/fromAddr). -/
structure Msg where
  toAddr : String
  fromAddr : String
  subject : String
  html : String
deriving DecidableEq

/-- The subject/html switch of sendOTPEmail (src lines 40-91); none models
the default branch.  Template whitespace is condensed to single spaces and
the JS ${otp} interpolations become concatenation. -/
def subjectHtml (type otp : String) : Option (String × String) :=
  if type = "registration" then
    some ("Verify Your Email - Alumni Platform",
      "<div style=\"font-family: Arial, sans-serif; max-width: 600px; margin: 0 auto;\"> <h2 style=\"color: #333;\">Welcome to Alumni Platform!</h2> <p>Thank you for registering. Please verify your email address using the OTP below:</p> <div style=\"background: #f4f4f4; padding: 20px; text-align: center; margin: 20px 0;\"> <h1 style=\"color: #007bff; font-size: 36px; margin: 0;\">"
        ++ otp ++
        "</h1> </div> <p>This OTP will expire in 10 minutes.</p> <p>If you didn\x27t request this, please ignore this email.</p> </div>")
  else if type = "forgot_password" then
    some ("Reset Your Password - Alumni Platform",
      "<div style=\"font-family: Arial, sans-serif; max-width: 600px; margin: 0 auto;\"> <h2 style=\"color: #333;\">Password Reset Request</h2> <p>You requested to reset your password. Use the OTP below to proceed:</p> <div style=\"background: #f4f4f4; padding: 20px; text-align: center; margin: 20px 0;\"> <h1 style=\"color: #dc3545; font-size: 36px; margin: 0;\">"
        ++ otp ++
        "</h1> </div> <p>This OTP will expire in 10 minutes.</p> <p>If you didn\x27t request this, please ignore this email and your password will remain unchanged.</p> </div>")
  else if type = "email_verification" then
    some ("Verify Your Email - Alumni Platform",
      "<div style=\"font-family: Arial, sans-serif; max-width: 600px; margin: 0 auto;\"> <h2 style=\"color: #333;\">Email Verification</h2> <p>Please verify your email address using the OTP below:</p> <div style=\"background: #f4f4f4; padding: 20px; text-align: center; margin: 20px 0;\"> <h1 style=\"color: #28a745; font-size: 36px; margin: 0;\">"
        ++ otp ++
        "</h1> </div> <p>This OTP will expire in 10 minutes.</p> <p>If you didn\x27t request this, please ignore this email.</p> </div>")
  else none

/-- sendOTPEmail (src lines 29-120).  The sgMail.send collaborator is
abstracted as sendErr: none means the send resolves, some m means it throws
an error whose .message is m (the empty string standing for a falsy missing
message, which the source replaces via error.message || 'Failed to send
email').  Returns the result object together with the list of messages
handed to sgMail.send. -/
def sendOTPEmail (env : EmailEnv) (sendErr : Option String)
    (email otp type : String) : EmailResult × List Msg :=
  if verifySendGridConfig env = false then
    ({ success := false,
       error := some "SendGrid is not properly configured. Please check your environment variables." },
      [])
  else
    match subjectHtml type otp with
    | none =>
      ({ success := false, error := some "Invalid email type specified" }, [])
    | some (subject, html) =>
      let msg : Msg :=
        { toAddr := email,
          fromAddr := env.sendgridFromEmail.getD "noreply@alumniplatform.com",
          subject := subject, html := html }
      match sendErr with
      | none => ({ success := true, error := none }, [msg])
      | some m =>
        ({ success := false,
           error := some (if m = "" then "Failed to send email" else m) },
          [msg])

/-- C9 counterexample: a call with an invalid type but with the SendGrid
configuration check failing (API key unset) returns the configuration error,
not { success: false, error: 'Invalid email type specified' }: the config
check at the top of sendOTPEmail preempts the type switch.  No send is
attempted there either. -/
theorem sendOTPEmail_invalid_type_counterexample :
    (sendOTPEmail ⟨none, none⟩ none "a@b.c" "123456" "bogus").1.error ≠
        some "Invalid email type specified" ∧
      "bogus" ∉
        (["registration", "forgot_password", "email_verification"] :
          List String) ∧
      (sendOTPEmail ⟨none, none⟩ none "a@b.c" "123456" "bogus").2 = [] := by
  refine ⟨?_, ?_, ?_⟩ <;> decide

/-- C9 (amended): for every call to sendOTPEmail whose type argument is none
of "registration", "forgot_password", "email_verification", provided the
SendGrid configuration check passes, the function returns { success: false,
error: 'Invalid email type specified' } and hands no message to the send
collaborator (no send call is made); when the configuration check fails the
returned error is the configuration one instead, again with no send
attempted (see the counterexample). -/
theorem sendOTPEmail_invalid_type (env : EmailEnv) (sendErr : Option String)
    (email otp type : String)
    (henv : verifySendGridConfig env = true)
    (h1 : type ≠ "registration") (h2 : type ≠ "forgot_password")
    (h3 : type ≠ "email_verification") :
    sendOTPEmail env sendErr email otp type =
      ({ success := false, error := some "Invalid email type specified" },
        []) := by
  unfold sendOTPEmail
  rw [henv]
  simp only [Bool.true_eq_false, if_false, ite_false]
  unfold subjectHtml
  rw [if_neg h1, if_neg h2, if_neg h3]

/-- Witness for the amended C9: an unknown type with the API key set. -/
theorem sendOTPEmail_invalid_type_witness :
    sendOTPEmail ⟨some "k", none⟩ none "a@b.c" "123456" "bogus" =
      ({ success := false, error := some "Invalid email type specified" },
        []) :=
  sendOTPEmail_invalid_type ⟨some "k", none⟩ none "a@b.c" "123456" "bogus"
    (by decide) (by decide) (by decide) (by decide)

/-- The identifiers defined at module scope in src/config/emailService.js:
its two requires and its four function declarations.  createTransporter is
not among them and is not imported — the file uses SendGrid (sgMail)
throughout, and no createTransporter is declared anywhere in it. -/
def emailServiceScope : List String :=
  ["sgMail", "crypto", "verifySendGridConfig", "generateOTP", "sendOTPEmail",
    "sendAdminApprovalEmail"]

/-- A thrown JavaScript error, as the rejection value of a returned
promise. -/
inductive JsError where
  | referenceError (name : String)
  | sendError (message : String)
deriving DecidableEq

/-- The alumni record whose fields the admin-approval template reads. -/
structure Alumni where
  name : String
  email : String
  batch : String
  branch : String
  location : String
deriving DecidableEq

/-- sendAdminApprovalEmail (src lines 123-154).  Its first statement — outside
any try block — evaluates createTransporter(); the identifier is resolved
against the module scope and, being unbound there, the evaluation throws a
ReferenceError that rejects the returned promise before transporter.sendMail
can be reached.  Were the identifier bound, the try/catch around sendMail
(abstracted as sendOutcome) would produce the success/failure results written
in the source; emailUser stands for process.env.EMAIL_USER.  The second
component lists the messages actually handed to a mail transport. -/
def sendAdminApprovalEmail (sendOutcome : Except String Unit)
    (emailUser adminEmail : String) (alumni : Alumni) :
    Except JsError EmailResult × List Msg :=
  if "createTransporter" ∈ emailServiceScope then
    let subject := "New Alumni Registration Pending Approval"
    let html :=
      "<div style=\"font-family: Arial, sans-serif; max-width: 600px; margin: 0 auto;\"> <h2 style=\"color: #333;\">New Alumni Registration Request</h2> <p>A new alumni has registered and is awaiting your approval:</p> <ul> <li><strong>Name:</strong> "
        ++ alumni.name ++ "</li> <li><strong>Email:</strong> "
        ++ alumni.email ++ "</li> <li><strong>Batch:</strong> "
        ++ alumni.batch ++ "</li> <li><strong>Branch:</strong> "
        ++ alumni.branch ++ "</li> <li><strong>Location:</strong> "
        ++ alumni.location ++
        "</li> </ul> <p>Please log in to the admin dashboard to approve or reject this request.</p> </div>"
    let mail : Msg :=
      { toAddr := adminEmail, fromAddr := "Alumni Platform <" ++ emailUser ++ ">",
        subject := subject, html := html }
    match sendOutcome with
    | .ok _ => (.ok { success := true, error := none }, [mail])
    | .error m => (.ok { success := false, error := some m }, [mail])
  else (.error (.referenceError "createTransporter"), [])

/-- C10: for every input, sendAdminApprovalEmail rejects with a
ReferenceError for the unbound identifier createTransporter, thrown outside
its try block, before any email is sent: no message reaches a transport, and
in particular the function can never produce { success: true }. -/
theorem sendAdminApprovalEmail_always_rejects
    (sendOutcome : Except String Unit) (emailUser adminEmail : String)
    (alumni : Alumni) :
    sendAdminApprovalEmail sendOutcome emailUser adminEmail alumni =
      (Except.error (JsError.referenceError "createTransporter"), []) := by
  unfold sendAdminApprovalEmail
  rw [if_neg (by decide)]

end AlumniSphere
